import Mathlib

/-!
Verification of the MXNet CI Jenkins autoscaler
(`services/jenkins-autoscaling/lambda_mxnet_ci/autoscaling/handler.py`).

The Python module is embedded shallowly: dictionaries become association
lists (`List (String × _)`, preserving insertion order), machine integers
become `Nat`/`Int`, Python's exact `math.ceil(a / b)` on nonnegative
integers becomes `(a + b - 1) / b` on `Nat` (floating point is modelled as
exact rational arithmetic), raised exceptions become `Option`/`Except`
`none`/`error` results, and `random.randrange`/`random.shuffle` become an
explicit choice function / permutation parameter so that theorems quantify
over every possible draw.  `logging.error` call sites are modelled by an
error counter threaded through the functions whose logging the spec
observes.

The file is split into a definitions part (the embedding) followed by a
theorems part (helper lemmas and one theorem per specification claim).
-/

set_option autoImplicit false

namespace Autoscaling

/-! ## Part 1 — definitions -/

/-! ### Association-list helpers (Python `dict` in insertion order) -/

/-- First-match lookup in an association list (Python `d[k]` / `k in d`). -/
def lookupA {α : Type} : List (String × α) → String → Option α
  | [], _ => none
  | (k', v) :: rest, k => if k = k' then some v else lookupA rest k

/-- Lookup in a `defaultdict(list)`: a missing key reads as `[]`. -/
def getL {α : Type} (m : List (String × List α)) (k : String) : List α :=
  (lookupA m k).getD []

/-- `defaultdict(list)` append: `m[k].append(x)`.  A fresh key is inserted
at the end, matching Python dict insertion order. -/
def addTo {α : Type} : List (String × List α) → String → α → List (String × List α)
  | [], k, x => [(k, [x])]
  | (k', v) :: rest, k, x =>
    if k = k' then (k', v ++ [x]) :: rest else (k', v) :: addTo rest k x

/-- Replace the value stored at the first entry with key `k`
(in-place mutation of `m[k]` through a reference in the Python source). -/
def setL {α : Type} : List (String × List α) → String → List α → List (String × List α)
  | [], _, _ => []
  | (k', v) :: rest, k, w =>
    if k = k' then (k', w) :: rest else (k', v) :: setL rest k w

/-- Sum of the values of a `label -> count` map
(`sum(label2num_instances.values())`). -/
def sumVals (l : List (String × Nat)) : Nat := (l.map (·.2)).sum

/-- Total number of retirees in a `label -> [node]` map. -/
def sumLens {α : Type} (m : List (String × List α)) : Nat :=
  (m.map (·.2.length)).sum

/-- Exact `math.ceil(a / b)` for nonnegative integers. -/
def cdiv (a b : Nat) : Nat := (a + b - 1) / b

/-! ### Data model: Jenkins node dictionaries and node API objects -/

/-- The fields of a `jenkinsapi` node data dictionary that the autoscaler
reads (`displayName`, `offline`, `temporarilyOffline`, `idle`,
`assignedLabels`, `monitorData[ArchitectureMonitor]`, `offlineCause._class`,
`offlineCauseReason`). -/
structure NodeData where
  displayName : String
  offline : Bool
  temporarilyOffline : Bool
  idle : Bool
  assignedLabels : List String
  arch : Option String
  offlineCauseClass : Option String
  offlineCauseReason : String
deriving DecidableEq

/-- The slice of the configuration environment the analyzed functions read:
`MANAGED_JENKINS_NODE_LABELS`, `IGNORED_JENKINS_NODE_LABELS`,
`WARM_POOL_SIZE`, `MINIMUM_QUEUE_TIMES_SEC`, `EXECUTORS_PER_LABEL`,
`MAXIMUM_STARTUP_TIME_SEC`. -/
structure Config where
  managedLabels : List String
  ignoredLabels : List String
  warmPool : List (String × Nat)
  minQueueTimes : List (String × Int)
  executorsPerLabel : List (String × Int)
  maximumStartupTime : List (String × Nat)
deriving DecidableEq

/-- `WINDOWS_MIN_PARTIAL_RUNTIME_SECONDS = 55 * 60` (handler.py line 63). -/
def WINDOWS_MIN_PARTIAL_RUNTIME_SECONDS : Nat := 55 * 60

/-- Python `sub in s` on strings: `sub` occurs contiguously in `s`. -/
def containsSub (sub : List Char) : List Char → Bool
  | [] => sub.isEmpty
  | c :: t => sub.isPrefixOf (c :: t) || containsSub sub t

/-- `'Windows' in node_data['monitorData'][...ArchitectureMonitor]`. -/
def isWindowsArch (a : String) : Bool := containsSub "Windows".toList a.toList

/-! ### `_managed_node_label` (handler.py lines 975-1007)

Python set-intersection iteration order is not observable through any of
the verified claims; the intersections are realised as de-duplicated
filters in assigned-label order.  The second component counts
`logging.error` calls. -/

/-- `_managed_node_label(node)`: blacklisted labels win, then a unique
managed label is required; several matching managed labels are an
error-level log and `None`. -/
def _managed_node_label (managed ignored : List String) (node : NodeData) :
    Option String × Nat :=
  let assigned := node.assignedLabels.dedup
  match assigned.filter (fun l => l ∈ ignored) with
  | b :: _ => (some b, 0)
  | [] =>
    match assigned.filter (fun l => l ∈ managed) with
    | [] => (none, 0)
    | [onlyMatch] => (some onlyMatch, 0)
    | _ :: _ :: _ => (none, 1)

/-! ### `determine_scale_down_nodes` (handler.py lines 249-319)

The per-node filtering pass (`nodes_to_disable` and `considered_nodes`
accumulation) followed by the warm-pool enforcement loop.
`random.randrange(0, len)` is modelled by `pick ctr % len` for an
arbitrary `pick : Nat → Nat` with a fresh counter value per draw;
`randrange` on an empty list raises `ValueError`, modelled as `none`. -/

/-- One loop iteration of the first pass of `determine_scale_down_nodes`:
decide whether the node joins `nodes_to_disable` and/or
`considered_nodes`. -/
def scanStep (cfg : Config) (uptime : List (String × Nat))
    (acc : List (String × List NodeData) × List (String × List NodeData))
    (node : NodeData) :
    List (String × List NodeData) × List (String × List NodeData) :=
  if node.offline = false ∧ node.idle = true then
    match (_managed_node_label cfg.managedLabels cfg.ignoredLabels node).1 with
    | none => acc
    | some label =>
      if label ∈ cfg.managedLabels then
        match node.arch with
        | none => acc
        | some archStr =>
          if isWindowsArch archStr then
            match lookupA uptime node.displayName with
            | none => acc
            | some d =>
              if d % 3600 < WINDOWS_MIN_PARTIAL_RUNTIME_SECONDS then
                (acc.1, addTo acc.2 label node)
              else
                (addTo acc.1 label node, addTo acc.2 label node)
          else
            (addTo acc.1 label node, addTo acc.2 label node)
      else acc
  else acc

/-- The first pass of `determine_scale_down_nodes`: returns
`(nodes_to_disable, considered_nodes)`. -/
def scaleDownScan (cfg : Config) (uptime : List (String × Nat))
    (nodes : List NodeData) :
    List (String × List NodeData) × List (String × List NodeData) :=
  nodes.foldl (scanStep cfg uptime) ([], [])

/-- `for _ in range(0, warm_value): cur_nodes.pop(random.randrange(0,
len(cur_nodes)))`.  `none` models the `ValueError` that
`random.randrange(0, 0)` raises on an empty list. -/
def popLoop (pick : Nat → Nat) : Nat → Nat → List NodeData →
    Option (List NodeData × Nat)
  | ctr, 0, l => some (l, ctr)
  | ctr, fuel + 1, l =>
    if l.length = 0 then none
    else popLoop pick (ctr + 1) fuel (l.eraseIdx (pick ctr % l.length))

/-- The warm-pool enforcement loop over `_warm_pool_node_counts().items()`:
`warm_value -= len(considered) - len(nodes_to_disable)`, then pop that many
random entries from the label's `nodes_to_disable` list. -/
def warmPass (pick : Nat → Nat) (considered : List (String × List NodeData)) :
    List (String × Nat) → Nat → List (String × List NodeData) →
      Option (List (String × List NodeData) × Nat)
  | [], ctr, dis => some (dis, ctr)
  | (wl, wv) :: rest, ctr, dis =>
    let cur := getL dis wl
    if cur.isEmpty then warmPass pick considered rest ctr dis
    else
      let pops := ((wv : Int) -
        (((getL considered wl).length : Int) - (cur.length : Int))).toNat
      match popLoop pick ctr pops cur with
      | none => none
      | some (cur2, ctr2) => warmPass pick considered rest ctr2 (setL dis wl cur2)

/-- `determine_scale_down_nodes(nodes_data, instance_uptime)`; `none`
models an uncaught `ValueError` escaping the warm-pool loop. -/
def determine_scale_down_nodes (cfg : Config) (pick : Nat → Nat)
    (nodes_data : List NodeData) (instance_uptime : List (String × Nat)) :
    Option (List (String × List NodeData)) :=
  let scan := scaleDownScan cfg instance_uptime nodes_data
  match warmPass pick scan.2 cfg.warmPool 0 scan.1 with
  | none => none
  | some (dis2, _) => some (dis2.filter (fun p => !p.2.isEmpty))

/-- A node that the hourly-billing rule protects this round: Windows
architecture and `uptime % 3600 < WINDOWS_MIN_PARTIAL_RUNTIME_SECONDS`. -/
def windowsShortB (uptime : List (String × Nat)) (node : NodeData) : Bool :=
  match node.arch with
  | none => false
  | some a =>
    isWindowsArch a &&
      match lookupA uptime node.displayName with
      | none => false
      | some d => decide (d % 3600 < WINDOWS_MIN_PARTIAL_RUNTIME_SECONDS)

/-- All nodes stored in a `label -> [node]` map satisfy `P`. -/
def InvMap (P : NodeData → Prop) (m : List (String × List NodeData)) : Prop :=
  ∀ p ∈ m, ∀ n ∈ p.2, P n

/-- The invariant maintained for `nodes_to_disable` entries: the node
passed the idle/online filters and is not protected by the hourly-billing
rule. -/
def DisOk (uptime : List (String × Nat)) (n : NodeData) : Prop :=
  n.offline = false ∧ n.idle = true ∧ windowsShortB uptime n = false

/-! ### `_apply_upscale_limit` (handler.py lines 1010-1045)

`OrderedDict(sorted(label2num_instances.items(), key=lambda t: t[1]))`
is an ascending stable sort by value; the theorems only depend on it being
an ascending permutation, realised here with `List.insertionSort`. -/

/-- Ascending ordering of the demand map by requested count. -/
def sortAsc (demand : List (String × Nat)) : List (String × Nat) :=
  demand.insertionSort (fun p q => p.2 ≤ q.2)

/-- The per-label reduction loop of `_apply_upscale_limit`:
`new_value = min(num_nodes_left, ceil(num_max_nodes * limit / total))`,
walking the ascending ordering and decrementing `num_nodes_left`. -/
def upGo (limit total : Nat) : Nat → List (String × Nat) → List (String × Nat)
  | _, [] => []
  | left, (lab, v) :: rest =>
    let nv := min left (cdiv (v * limit) total)
    (lab, nv) :: upGo limit total (left - nv) rest

/-- `_apply_upscale_limit(limit, label2num_instances)`: returns the demand
unchanged when its total fits the cap, otherwise compresses it
proportionally in ascending order of requested count. -/
def _apply_upscale_limit (limit : Nat) (demand : List (String × Nat)) :
    List (String × Nat) :=
  let total := sumVals demand
  if total ≤ limit then demand
  else upGo limit total limit (sortAsc demand)

/-! ### `_apply_downscale_limit` (handler.py lines 1048-1065)

`random.shuffle` is modelled by quantifying over any permutation
`shuffled` of the retirement map's item list. -/

/-- The inner `for node in nodes` loop: increment `i`, stop as soon as it
exceeds the cap, otherwise keep the node.  Returns the kept nodes and the
final value of `i`. -/
def innerDown {α : Type} (limit : Nat) : Nat → List α → List α × Nat
  | i, [] => ([], i)
  | i, x :: xs =>
    if limit < i + 1 then ([], i + 1)
    else
      let r := innerDown limit (i + 1) xs
      (x :: r.1, r.2)

/-- The outer `for label, nodes in shuffeled` loop, breaking once `i`
reaches the cap.  A label whose kept list is empty creates no entry
(`defaultdict` only materialises keys on append). -/
def outerDown {α : Type} (limit : Nat) : Nat → List (String × List α) → List (String × List α)
  | _, [] => []
  | i, (lab, xs) :: rest =>
    let r := innerDown limit i xs
    let entry : List (String × List α) := if r.1.isEmpty then [] else [(lab, r.1)]
    if limit ≤ r.2 then entry
    else entry ++ outerDown limit r.2 rest

/-- `_apply_downscale_limit(limit, scale_down_nodes)` applied to the
shuffled item list. -/
def _apply_downscale_limit {α : Type} (limit : Nat)
    (shuffled : List (String × List α)) : List (String × List α) :=
  outerDown limit 0 shuffled

/-! ### `_delete_jenkins_node_object` (handler.py lines 676-698) -/

/-- `_delete_jenkins_node_object(node_obj)`.  `isOnline` is
`node_obj.is_online()`; `postResult` is the outcome of the
`doDelete` POST, `Except.error code` being an `HTTPError` with that
status code.  A still-online node is refused with an error log (normal
return); a 404 from the delete request is swallowed; any other HTTPError
propagates (re-`raise`). -/
def _delete_jenkins_node_object (isOnline : Bool) (postResult : Except Nat Unit) :
    Except Nat Unit :=
  if isOnline then .ok ()
  else
    match postResult with
    | .ok _ => .ok ()
    | .error code => if code = 404 then .ok () else .error code

/-! ### Scale-down execution: `_partition_non_idle` and
`execute_scale_down_logic` (handler.py lines 135-177 and 585-608) -/

/-- A `jenkinsapi` node object at scale-down time.  `preOffline` is
`node._data['offline']` as fetched at the start of the pass; `idle` and
`online` are `is_idle()` / `is_online()` as observed by the re-`poll`
after the node was marked offline. -/
structure NodeObj where
  name : String
  preOffline : Bool
  idle : Bool
  online : Bool
deriving DecidableEq

/-- The `partition(predicate, iterable)` helper (handler.py lines 90-92). -/
def partitionP {α : Type} (p : α → Bool) (l : List α) : List α × List α :=
  (l.filter p, l.filter (fun x => !(p x)))

/-- `_partition_non_idle(node_objs)`: after re-polling, keep the retirees
that are idle and not online; everything else lost a race and is returned
in the second component. -/
def _partition_non_idle (node_objs : List NodeObj) : List NodeObj × List NodeObj :=
  if node_objs = [] then ([], [])
  else
    (node_objs.filter (fun o => o.idle && !o.online),
     node_objs.filter (fun o => !o.idle || o.online))

/-- The node-selection slice of `execute_scale_down_logic`: partition the
retirees by the fetched `offline` flag, re-check the previously-online ones
with `_partition_non_idle`, re-enable (`set_online`) the losers, and
terminate the survivors together with the already-offline ones.  Returns
(final termination list, nodes passed to `_mark_nodes_online`). -/
def execute_scale_down_model (nodes : List NodeObj) : List NodeObj × List NodeObj :=
  let pr := partitionP (fun node => !node.preOffline) nodes
  let nodes_online := pr.1
  let nodes_offline := pr.2
  let pni := _partition_non_idle nodes_online
  (pni.1 ++ nodes_offline, pni.2)

/-! ### Concrete instances used by the scale-down claims -/

/-- Configuration with a single managed Windows label and warm pool 0. -/
def cfgWin : Config :=
  { managedLabels := ["mxnetwindows-cpu"]
    ignoredLabels := []
    warmPool := [("mxnetwindows-cpu", 0)]
    minQueueTimes := []
    executorsPerLabel := []
    maximumStartupTime := [] }

/-- An idle, non-offline Windows executor. -/
def nodeWin : NodeData :=
  { displayName := "mxnetwindows-cpu_a1b2c3d4e5"
    offline := false
    temporarilyOffline := false
    idle := true
    assignedLabels := ["mxnetwindows-cpu"]
    arch := some "Windows NT (unknown) (amd64)"
    offlineCauseClass := none
    offlineCauseReason := "" }

/-- Configuration with a single managed Linux label and warm pool 2. -/
def cfgLinWarm2 : Config :=
  { managedLabels := ["mxnetlinux-cpu"]
    ignoredLabels := []
    warmPool := [("mxnetlinux-cpu", 2)]
    minQueueTimes := []
    executorsPerLabel := []
    maximumStartupTime := [] }

/-- An idle, non-offline Linux executor. -/
def nodeLin : NodeData :=
  { displayName := "mxnetlinux-cpu_f6g7h8i9j0"
    offline := false
    temporarilyOffline := false
    idle := true
    assignedLabels := ["mxnetlinux-cpu"]
    arch := some "Linux (amd64)"
    offlineCauseClass := none
    offlineCauseReason := "" }

/-! ### `_label_from_queued_job` (handler.py lines 49-57 and 447-485)

Each queue-reason regex of `RE_NO_AVAILABLE_NODE` has the shape
`literal-prefix (?P<label>[^\s;\\]*) literal-suffix`; `re.search` with a
greedy character-class star is realised literally on `List Char`: scan the
start positions left to right, take the maximal run of class characters,
and backtrack the capture until the literal suffix follows. -/

/-- The character class `[^\s;\\]` (ASCII whitespace, `;` and backslash
excluded). -/
def tokOk (c : Char) : Bool :=
  decide (¬(c = ' ' ∨ c = '\t' ∨ c = '\n' ∨ c = '\r' ∨ c = '\x0B' ∨ c = '\x0C' ∨
    c = ';' ∨ c = '\\'))

/-- The characters stripped around an extracted label:
`label.strip(' ‘’\'"')`. -/
def stripBad (c : Char) : Bool :=
  decide (c = ' ' ∨ c = '‘' ∨ c = '’' ∨ c = '\'' ∨ c = '"')

/-- Greedy backtracking for the single `(?P<label>[^\s;\\]*)` group: try
the capture lengths `k, k-1, …, 0` against `rest` and return the first
capture after which the literal suffix `S` follows. -/
def bt (S rest run : List Char) : Nat → Option (List Char)
  | 0 => if S.isPrefixOf rest then some (run.take 0) else none
  | k + 1 =>
    if S.isPrefixOf (rest.drop (k + 1)) then some (run.take (k + 1))
    else bt S rest run k

/-- Attempt to match `P (?P<label>[^\s;\\]*) S` at the start of `s`. -/
def tryAt (P S : List Char) (s : List Char) : Option (List Char) :=
  if P.isPrefixOf s then
    let rest := s.drop P.length
    let run := rest.takeWhile tokOk
    bt S rest run run.length
  else none

/-- `re.search` of `P (?P<label>[^\s;\\]*) S`: try every start position
left to right. -/
def searchPS (P S : List Char) : List Char → Option (List Char)
  | [] => tryAt P S []
  | c :: t =>
    match tryAt P S (c :: t) with
    | some r => some r
    | none => searchPS P S t

/-- Literal pieces of the five `RE_NO_AVAILABLE_NODE` regexes
(handler.py lines 50-56), in order. -/
def reP1 : List Char := "There are no nodes with the label ‘".toList

def reS1 : List Char := "’".toList

def reP2 : List Char := "All nodes of label ‘".toList

def reS2 : List Char := "’ are offline".toList

def reP3 : List Char := "doesn’t have label ".toList

def reP4 : List Char := "Waiting for next available executor on ".toList

def reS5 : List Char := " is offline".toList

/-- `RE_NO_AVAILABLE_NODE`: each regex as (literal prefix, literal suffix)
around the single label group. -/
def RE_NO_AVAILABLE_NODE : List (List Char × List Char) :=
  [(reP1, reS1), (reP2, reS2), (reP3, []), (reP4, []), ([], reS5)]

/-- First regex in the ordered list with a match anywhere in `why` wins
(the `for … break / else return None` loop). -/
def firstMatch : List (List Char × List Char) → List Char → Option (List Char)
  | [], _ => none
  | (P, S) :: rest, s =>
    match searchPS P S s with
    | some r => some r
    | none => firstMatch rest s

/-- `RE_NO_AVAILABLE_NODES = r"(^Waiting for next available executor$)"`:
under `re.search` the anchors make this an exact match, except that
Python's `$` also accepts a single trailing newline. -/
def SENTINEL : List Char := "Waiting for next available executor".toList

/-- Python `str.strip` with a character set. -/
def pyStrip (bad : Char → Bool) (l : List Char) : List Char :=
  ((l.dropWhile bad).reverse.dropWhile bad).reverse

/-- `_find_node_by_name(nodes, name)` (handler.py lines 500-511). -/
def _find_node_by_name : List NodeData → String → Option NodeData
  | [], _ => none
  | n :: rest, name =>
    if name = n.displayName then some n else _find_node_by_name rest name

/-- The tail of `_label_from_queued_job` after a label token was captured:
strip the quote characters, and when the token is not a managed label try
to resolve it as an executor display name.  The second component counts
`logging.error` calls. -/
def _label_postprocess (managed ignored : List String) (nodes : List NodeData)
    (raw : List Char) : Option String × Nat :=
  let lab := String.mk (pyStrip stripBad raw)
  if lab ∈ managed then (some lab, 0)
  else
    match _find_node_by_name nodes lab with
    | none => (none, 1)
    | some node =>
      match _managed_node_label managed ignored node with
      | (some l2, e) => (some l2, e)
      | (none, e) => (none, e + 1)

/-- `_label_from_queued_job(nodes, queue_item)` on the item's `why` text.
The second component counts `logging.error` calls. -/
def _label_from_queued_job (managed ignored : List String) (nodes : List NodeData)
    (why : List Char) : Option String × Nat :=
  let lab0 : Option (List Char) :=
    if why = SENTINEL ∨ why = SENTINEL ++ ['\n'] then some "mxnetlinux-cpu".toList
    else firstMatch RE_NO_AVAILABLE_NODE why
  match lab0 with
  | none => (none, 0)
  | some raw => _label_postprocess managed ignored nodes raw

/-! ### `determine_scale_up_nodes` (handler.py lines 180-246)

`time.time()` becomes the parameter `now : ℚ`, and the float queue age
`now - inQueueSince/1000` is computed in exact rational arithmetic. -/

/-- A Jenkins queue item: `id`, `why`, `inQueueSince` (epoch ms). -/
structure QueueItem where
  id : Nat
  why : List Char
  inQueueSince : Int
deriving DecidableEq

/-- Increment a counter keyed by an `Option String` —
`_get_idle_nodes_per_label` uses `_managed_node_label`'s result (possibly
`None`) directly as a dict key. -/
def bumpO : List (Option String × Nat) → Option String → List (Option String × Nat)
  | [], k => [(k, 1)]
  | (k', v) :: rest, k =>
    if k = k' then (k', v + 1) :: rest else (k', v) :: bumpO rest k

/-- One loop iteration of `_get_idle_nodes_per_label`. -/
def idleStep (managed ignored : List String)
    (acc : List (Option String × Nat) × Nat) (node : NodeData) :
    List (Option String × Nat) × Nat :=
  if node.offline = true ∨ node.idle = false then acc
  else
    let r := _managed_node_label managed ignored node
    (bumpO acc.1 r.1, acc.2 + r.2)

/-- `_get_idle_nodes_per_label(nodes_data)` (handler.py lines 957-972),
with the count of `logging.error` calls from `_managed_node_label`. -/
def _get_idle_nodes_per_label (managed ignored : List String)
    (nodes_data : List NodeData) : List (Option String × Nat) × Nat :=
  nodes_data.foldl (idleStep managed ignored) ([], 0)

/-- `label in idle_nodes_per_label and idle_nodes_per_label[label]`,
read as `get(label, 0)`. -/
def lookupIdle : List (Option String × Nat) → String → Nat
  | [], _ => 0
  | (k, v) :: rest, lab => if k = some lab then v else lookupIdle rest lab

/-- `defaultdict(int)` increment:
`dict_required_executors[label] = dict_required_executors.get(label, 0) + 1`. -/
def bumpN : List (String × Nat) → String → List (String × Nat)
  | [], k => [(k, 1)]
  | (k', v) :: rest, k =>
    if k = k' then (k', v + 1) :: rest else (k', v) :: bumpN rest k

/-- One iteration of the queue-item loop of `determine_scale_up_nodes`:
resolve the label, check `MINIMUM_QUEUE_TIMES_SEC` membership, queue
maturity, and the idle-executor suspicion rule. -/
def scaleUpStep (cfg : Config) (now : ℚ) (nodes : List NodeData)
    (idleMap : List (Option String × Nat))
    (acc : List (String × Nat) × Nat) (item : QueueItem) :
    List (String × Nat) × Nat :=
  match _label_from_queued_job cfg.managedLabels cfg.ignoredLabels nodes item.why with
  | (none, e) => (acc.1, acc.2 + e)
  | (some label, e) =>
    let errs := acc.2 + e
    match lookupA cfg.minQueueTimes label with
    | none => (acc.1, errs + 1)
    | some minT =>
      if now - (item.inQueueSince : ℚ) / 1000 < (minT : ℚ) then (acc.1, errs)
      else if 0 < lookupIdle idleMap label then (acc.1, errs + 1)
      else (bumpN acc.1 label, errs)

/-- `_get_nb_executors_by_label(label)` (handler.py lines 488-497). -/
def _get_nb_executors_by_label (cfg : Config) (label : String) : Option Int × Nat :=
  match lookupA cfg.executorsPerLabel label with
  | some v => (some v, 0)
  | none => (none, 1)

/-- One iteration of `_calculate_nb_required_nodes`
(handler.py lines 382-408). -/
def calcStep (cfg : Config) (acc : List (String × Nat) × Nat)
    (entry : String × Nat) : List (String × Nat) × Nat :=
  if entry.1 ∈ cfg.ignoredLabels then acc
  else
    let r := _get_nb_executors_by_label cfg entry.1
    match r.1 with
    | some nb =>
      if 0 < nb then
        let nbNodes := cdiv entry.2 nb.toNat
        if 0 < nbNodes then (acc.1 ++ [(entry.1, nbNodes)], acc.2 + r.2)
        else (acc.1, acc.2 + r.2)
      else (acc.1, acc.2 + r.2 + 1)
    | none => (acc.1, acc.2 + r.2 + 1)

/-- `_calculate_nb_required_nodes(dict_required_executors)` with its
error-log count. -/
def _calculate_nb_required_nodes (cfg : Config) (req : List (String × Nat)) :
    List (String × Nat) × Nat :=
  req.foldl (calcStep cfg) ([], 0)

/-- `dict.pop(k)` on an association list. -/
def removeKey : List (String × Nat) → String → List (String × Nat)
  | [], _ => []
  | (k', v) :: rest, k => if k = k' then rest else (k', v) :: removeKey rest k

/-- `dict[k] = n` on an association list. -/
def setNum : List (String × Nat) → String → Nat → List (String × Nat)
  | [], k, n => [(k, n)]
  | (k', v) :: rest, k, n =>
    if k = k' then (k', n) :: rest else (k', v) :: setNum rest k n

/-- `label2num_instances.get(label, 0)`. -/
def getNum (m : List (String × Nat)) (k : String) : Nat := (lookupA m k).getD 0

/-- The trailing loop of `determine_scale_up_nodes`: subtract the count of
currently-starting instances per label, clamping at zero and dropping the
label when nothing is left. -/
def subtractUnconnected : List (String × List String) → List (String × Nat) →
    List (String × Nat)
  | [], m => m
  | (label, names) :: rest, m =>
    let r : Int := (getNum m label : Int) - (names.length : Int)
    if 0 < r then subtractUnconnected rest (setNum m label r.toNat)
    else
      if (lookupA m label).isSome then subtractUnconnected rest (removeKey m label)
      else subtractUnconnected rest m

/-- `determine_scale_up_nodes(queue_items, nodes, unconnected)`, returning
the demand map and the number of `logging.error` calls. -/
def determine_scale_up_nodes (cfg : Config) (now : ℚ)
    (queue_items : List QueueItem) (nodes : List NodeData)
    (unconnected : List (String × List String)) : List (String × Nat) × Nat :=
  let idle := _get_idle_nodes_per_label cfg.managedLabels cfg.ignoredLabels nodes
  let scan := queue_items.foldl (scaleUpStep cfg now nodes idle.1) ([], 0)
  let conv := _calculate_nb_required_nodes cfg scan.1
  (subtractUnconnected unconnected conv.1, idle.2 + scan.2 + conv.2)

/-- A queue item that resolves to a managed label present in
`MINIMUM_QUEUE_TIMES_SEC`, is mature, and cites a label that currently has
an idle executor — the suspicious mis-scheduling case of the demand
analyzer. -/
def IdleSuspicious (cfg : Config) (now : ℚ) (nodes : List NodeData)
    (item : QueueItem) : Prop :=
  ∃ label minT,
    (_label_from_queued_job cfg.managedLabels cfg.ignoredLabels nodes item.why).1
      = some label ∧
    lookupA cfg.minQueueTimes label = some minT ∧
    (minT : ℚ) ≤ now - (item.inQueueSince : ℚ) / 1000 ∧
    0 < lookupIdle
      (_get_idle_nodes_per_label cfg.managedLabels cfg.ignoredLabels nodes).1 label

/-! ### Concrete instances used by the demand-analyzer claims -/

/-- Configuration with one managed, restricted label. -/
def cfgRestricted : Config :=
  { managedLabels := ["restricted-mxnetlinux-cpu"]
    ignoredLabels := []
    warmPool := []
    minQueueTimes := [("restricted-mxnetlinux-cpu", 30)]
    executorsPerLabel := [("restricted-mxnetlinux-cpu", 3)]
    maximumStartupTime := [] }

/-- An idle, non-offline executor carrying the restricted label. -/
def restrictedNode (name : String) : NodeData :=
  { displayName := name
    offline := false
    temporarilyOffline := false
    idle := true
    assignedLabels := ["restricted-mxnetlinux-cpu"]
    arch := some "Linux (amd64)"
    offlineCauseClass := none
    offlineCauseReason := "" }

/-- Five idle restricted executors. -/
def restrictedIdleNodes : List NodeData :=
  [restrictedNode "restricted-a", restrictedNode "restricted-b",
   restrictedNode "restricted-c", restrictedNode "restricted-d",
   restrictedNode "restricted-e"]

/-- A stale queue item citing the restricted label. -/
def restrictedItem (i : Nat) : QueueItem :=
  { id := i
    why := ("Waiting for next available executor on restricted-mxnetlinux-cpu").toList
    inQueueSince := 0 }

/-- Ten such queue items. -/
def restrictedQueueItems : List QueueItem := (List.range 10).map restrictedItem

/-! ### `_unconnected_instances` and `_determine_faulty_nodes`
(handler.py lines 411-444 and 322-379)

Dictionary indexing that can raise `KeyError` (`tags['Name']`,
`instance_uptime[...]`, `_maximum_startup_time()[label]`) is modelled with
`Option`, `none` being an escaped exception. -/

def DOWNSCALE_REASON : String := "[AUTOSCALING] Downscale"

def DOWNSCALE_MANUAL_REASON : String := "[DOWNSCALE]"

def NODE_MONITOR_OFFLINE_CAUSE : String := "hudson.node_monitors"

/-- Python `s.startswith(pre)`. -/
def strStartsWith (s pre : String) : Bool := pre.toList.isPrefixOf s.toList

/-- An EC2 instance as seen through the autoscaler: id, state and tag
list.  Tag keys are unique (AWS guarantees this). -/
structure Ec2Instance where
  instId : String
  state : String
  tags : List (String × String)
deriving DecidableEq

/-- `_ec2Instance_tag_dict(ec2_object)` (handler.py lines 1390-1398). -/
def _ec2Instance_tag_dict (inst : Ec2Instance) : List (String × String) :=
  inst.tags

/-- The filter sent to the EC2 API by `_unconnected_instances`:
state in {pending, running} and `tag:AutoScaledSlave = 'True'`. -/
def managedRunningFilter (inst : Ec2Instance) : Bool :=
  (inst.state == "pending" || inst.state == "running") &&
    (lookupA (_ec2Instance_tag_dict inst) "AutoScaledSlave" == some "True")

/-- One iteration of the instance loop of `_unconnected_instances`. -/
def unconnectedStep (nodes : List NodeData) (uptime : List (String × Nat))
    (acc : Option (List (String × List String))) (inst : Ec2Instance) :
    Option (List (String × List String)) :=
  match acc with
  | none => none
  | some m =>
    let tags := _ec2Instance_tag_dict inst
    match lookupA tags "Name" with
    | none => none
    | some name =>
      match _find_node_by_name nodes name with
      | some target =>
        if target.offline = true ∧ target.temporarilyOffline = false then
          match lookupA tags "label" with
          | some label =>
            match lookupA uptime target.displayName with
            | none => none
            | some _ => some (addTo m label name)
          | none => some m
        else some m
      | none =>
        match lookupA tags "label" with
        | some label => some (addTo m label name)
        | none => some m

/-- `_unconnected_instances(nodes, instance_uptime, ec2_resource)`:
label → names of managed VMs that are starting (or orphaned). -/
def _unconnected_instances (nodes : List NodeData) (uptime : List (String × Nat))
    (instances : List Ec2Instance) : Option (List (String × List String)) :=
  (instances.filter managedRunningFilter).foldl (unconnectedStep nodes uptime)
    (some [])

/-- The inner loop over one label's unconnected instance names in
`_determine_faulty_nodes`: a name with no matching executor is an orphan;
a matching executor whose VM exceeded the startup limit is faulty. -/
def faultyNames (nodes : List NodeData) (uptime : List (String × Nat))
    (limit : Nat) (label : String) :
    List String → List (String × List NodeData) × List String →
      Option (List (String × List NodeData) × List String)
  | [], acc => some acc
  | name :: rest, acc =>
    match _find_node_by_name nodes name with
    | none => faultyNames nodes uptime limit label rest (acc.1, acc.2 ++ [name])
    | some node =>
      match lookupA uptime name with
      | none => none
      | some up =>
        if limit < up then
          faultyNames nodes uptime limit label rest (addTo acc.1 label node, acc.2)
        else faultyNames nodes uptime limit label rest acc

/-- The first loop of `_determine_faulty_nodes`, over the unconnected
instance map. -/
def faultyUnconnected (cfg : Config) (nodes : List NodeData)
    (uptime : List (String × Nat)) :
    List (String × List String) → List (String × List NodeData) × List String →
      Option (List (String × List NodeData) × List String)
  | [], acc => some acc
  | (label, instances) :: rest, acc =>
    match lookupA cfg.maximumStartupTime label with
    | none => none
    | some limit =>
      match faultyNames nodes uptime limit label instances acc with
      | none => none
      | some acc2 => faultyUnconnected cfg nodes uptime rest acc2

/-- One iteration of the second loop of `_determine_faulty_nodes`, over
the registered executors: monitor-offline, stale downscale mark, or slot
without a VM. -/
def faultyNodeStep (cfg : Config) (uptime : List (String × Nat))
    (acc : List (String × List NodeData)) (node : NodeData) :
    List (String × List NodeData) :=
  if node.displayName = "master" then acc
  else
    match (_managed_node_label cfg.managedLabels cfg.ignoredLabels node).1 with
    | none => acc
    | some label =>
      if node.temporarilyOffline = true ∧
          (match node.offlineCauseClass with
           | some c => strStartsWith c NODE_MONITOR_OFFLINE_CAUSE
           | none => false) = true then
        addTo acc label node
      else if node.offlineCauseReason = DOWNSCALE_REASON ∨
          strStartsWith node.offlineCauseReason DOWNSCALE_MANUAL_REASON = true then
        addTo acc label node
      else if lookupA uptime node.displayName = none then
        addTo acc label node
      else acc

/-- `_determine_faulty_nodes(nodes, unconnected_instances,
instance_uptime)`: the faulty-executor map and the orphaned instance names
for direct termination. -/
def _determine_faulty_nodes (cfg : Config) (nodes : List NodeData)
    (unconnected_instances : List (String × List String))
    (instance_uptime : List (String × Nat)) :
    Option (List (String × List NodeData) × List String) :=
  match faultyUnconnected cfg nodes instance_uptime unconnected_instances ([], []) with
  | none => none
  | some acc =>
    let m2 := nodes.foldl (faultyNodeStep cfg instance_uptime) acc.1
    some (m2.filter (fun p => !p.2.isEmpty), acc.2)

/-! ### Concrete instances used by the orphan claim -/

/-- A managed, running VM whose Name tag matches no executor. -/
def ghostInstance : Ec2Instance :=
  { instId := "i-0abc12345"
    state := "running"
    tags := [("Name", "mxnetlinux-cpu_gh0st00000"), ("AutoScaledSlave", "True"),
             ("label", "mxnetlinux-cpu")] }

/-- Configuration for the orphan scenario. -/
def cfgOrphan : Config :=
  { managedLabels := ["mxnetlinux-cpu"]
    ignoredLabels := []
    warmPool := []
    minQueueTimes := []
    executorsPerLabel := []
    maximumStartupTime := [("mxnetlinux-cpu", 300)] }

/-! ## Part 2 — theorems -/

/-! ### Arithmetic facts about the upscale compression loop -/

theorem cdiv_le_self {limit total v : Nat} (hlt : limit ≤ total) (hpos : 0 < total) :
    cdiv (v * limit) total ≤ v := by
  unfold cdiv
  have hmul : v * limit ≤ v * total := Nat.mul_le_mul_left v hlt
  have : v * limit + total - 1 < (v + 1) * total := by
    have : (v + 1) * total = v * total + total := by ring
    omega
  have := (Nat.div_lt_iff_lt_mul hpos).mpr this
  omega

theorem le_mul_cdiv {a total : Nat} (hpos : 0 < total) : a ≤ total * cdiv a total := by
  unfold cdiv
  have h1 := Nat.div_add_mod (a + total - 1) total
  have h2 : (a + total - 1) % total < total := Nat.mod_lt _ hpos
  omega

/-- The ceilings of the proportional shares of a list sum to at least the
cap: `total * Σ cdiv (v*limit) total ≥ (Σ v) * limit`. -/
theorem sum_cdiv_lower (limit total : Nat) (hpos : 0 < total)
    (l : List (String × Nat)) :
    sumVals l * limit ≤ total * (l.map (fun p => cdiv (p.2 * limit) total)).sum := by
  induction l with
  | nil => simp [sumVals]
  | cons hd tl ih =>
    have hhd : hd.2 * limit ≤ total * cdiv (hd.2 * limit) total := le_mul_cdiv hpos
    have : sumVals (hd :: tl) = hd.2 + sumVals tl := by simp [sumVals]
    rw [this]
    have hexp : (hd.2 + sumVals tl) * limit = hd.2 * limit + sumVals tl * limit := by ring
    simp only [List.map_cons, List.sum_cons, Nat.mul_add]
    omega

/-- The loop distributes exactly `min left (Σ ceilings)` nodes. -/
theorem upGo_sum (limit total : Nat) (left : Nat) (l : List (String × Nat)) :
    sumVals (upGo limit total left l)
      = min left ((l.map (fun p => cdiv (p.2 * limit) total)).sum) := by
  induction l generalizing left with
  | nil => simp [upGo, sumVals]
  | cons hd tl ih =>
    simp only [upGo, sumVals, List.map_cons, List.sum_cons]
    have htl := ih (left - min left (cdiv (hd.2 * limit) total))
    simp only [sumVals] at htl
    rw [htl]
    omega

/-- Each label's compressed count stays below its requested count, label by
label along the ascending ordering. -/
theorem upGo_forall2 (limit total : Nat) (hlt : limit ≤ total) (hpos : 0 < total)
    (left : Nat) (l : List (String × Nat)) :
    List.Forall₂ (fun p q => p.1 = q.1 ∧ q.2 ≤ p.2) l (upGo limit total left l) := by
  induction l generalizing left with
  | nil => simp [upGo]
  | cons hd tl ih =>
    refine List.Forall₂.cons ⟨rfl, ?_⟩ (ih _)
    exact le_trans (Nat.min_le_right _ _) (cdiv_le_self hlt hpos)

theorem sumVals_sortAsc (demand : List (String × Nat)) :
    sumVals (sortAsc demand) = sumVals demand := by
  unfold sumVals sortAsc
  exact List.Perm.sum_eq (List.Perm.map _ (List.perm_insertionSort _ demand))

/-- C1: when the requested total already fits the per-round upscale cap the
demand map is returned unchanged; when it exceeds the cap, the compressed
map's values sum to exactly the cap and each label (paired along the
ascending ordering of the input) is granted at most what it requested. -/
theorem apply_upscale_limit_spec (limit : Nat) (demand : List (String × Nat)) :
    (sumVals demand ≤ limit → _apply_upscale_limit limit demand = demand) ∧
    (limit < sumVals demand →
      sumVals (_apply_upscale_limit limit demand) = limit ∧
      List.Forall₂ (fun p q => p.1 = q.1 ∧ q.2 ≤ p.2)
        (sortAsc demand) (_apply_upscale_limit limit demand)) := by
  constructor
  · intro h
    unfold _apply_upscale_limit
    simp [h]
  · intro h
    have hne : ¬ sumVals demand ≤ limit := by omega
    have hpos : 0 < sumVals demand := by omega
    constructor
    · unfold _apply_upscale_limit
      simp only [hne, if_false]
      rw [upGo_sum]
      have hlow := sum_cdiv_lower limit (sumVals demand) hpos (sortAsc demand)
      rw [sumVals_sortAsc] at hlow
      have : limit ≤ ((sortAsc demand).map
          (fun p => cdiv (p.2 * limit) (sumVals demand))).sum := by
        by_contra hc
        push_neg at hc
        have := Nat.mul_le_mul_left (sumVals demand) (Nat.le_of_lt_succ (Nat.lt_succ_of_lt hc))
        nlinarith
      omega
    · unfold _apply_upscale_limit
      simp only [hne, if_false]
      exact upGo_forall2 limit (sumVals demand) (by omega) hpos limit (sortAsc demand)

/-- Witness for C1, at the spec's concrete example: demand
`{a: 1, b: 2, c: 7}` with cap 5 compresses to `{a: 1, b: 1, c: 3}`,
summing to the cap, and the ≤-cap case leaves a map unchanged. -/
theorem apply_upscale_limit_spec_witness :
    _apply_upscale_limit 5 [("a", 1), ("b", 2), ("c", 7)]
        = [("a", 1), ("b", 1), ("c", 3)] ∧
    sumVals (_apply_upscale_limit 5 [("a", 1), ("b", 2), ("c", 7)]) = 5 ∧
    _apply_upscale_limit 5 [("a", 1), ("b", 2)] = [("a", 1), ("b", 2)] := by
  refine ⟨by decide, ?_, ?_⟩
  · exact ((apply_upscale_limit_spec 5 [("a", 1), ("b", 2), ("c", 7)]).2 (by decide)).1
  · exact (apply_upscale_limit_spec 5 [("a", 1), ("b", 2)]).1 (by decide)

/-! ### C9: delete idempotence -/

/-- C9: deleting an already-deleted slot succeeds — a 404 from the delete
POST makes `_delete_jenkins_node_object` return normally, while an
HTTPError with any other status is re-raised. -/
theorem delete_slot_idempotent (code : Nat) :
    _delete_jenkins_node_object false (.error 404) = .ok () ∧
    (code ≠ 404 → _delete_jenkins_node_object false (.error code) = .error code) := by
  constructor
  · rfl
  · intro h
    simp [_delete_jenkins_node_object, h]

/-- Witness for C9 at status 500. -/
theorem delete_slot_idempotent_witness :
    _delete_jenkins_node_object false (.error 404) = .ok () ∧
    ((500 : Nat) ≠ 404 ∧ _delete_jenkins_node_object false (.error 500) = .error 500) :=
  ⟨(delete_slot_idempotent 500).1, by decide, (delete_slot_idempotent 500).2 (by decide)⟩

/-! ### C8: race recovery during scale-down -/

/-- C8: every previously-online retiree that re-polls as non-idle or online
again is sent to `set_online` and dropped from the final termination set;
every previously-online retiree that re-polls idle-and-not-online stays in
the final set; the two outcomes are disjoint and cover all
previously-online retirees. -/
theorem scale_down_race_partition (nodes : List NodeObj) (x : NodeObj)
    (hx : x ∈ nodes) (hon : x.preOffline = false) :
    ((x.idle = true ∧ x.online = false) →
        x ∈ (execute_scale_down_model nodes).1 ∧ x ∉ (execute_scale_down_model nodes).2) ∧
    (¬(x.idle = true ∧ x.online = false) →
        x ∈ (execute_scale_down_model nodes).2 ∧ x ∉ (execute_scale_down_model nodes).1) ∧
    (x ∈ (execute_scale_down_model nodes).1 ∨ x ∈ (execute_scale_down_model nodes).2) ∧
    ¬(x ∈ (execute_scale_down_model nodes).1 ∧ x ∈ (execute_scale_down_model nodes).2) := by
  by_cases hoe : nodes.filter (fun node => !node.preOffline) = []
  · exfalso
    have : x ∈ nodes.filter (fun node => !node.preOffline) := by
      simp [List.mem_filter, hx, hon]
    rw [hoe] at this
    exact absurd this (List.not_mem_nil x)
  · simp only [execute_scale_down_model, partitionP, _partition_non_idle, hoe, if_false,
      List.mem_append, List.mem_filter, hx, hon]
    by_cases hidle : x.idle = true <;> by_cases honl : x.online = true <;>
      simp [hidle, honl, hon]

/-- Witness for C8: a concrete previously-online retiree that lost the race
(a build started: not idle any more) is re-enabled and not terminated. -/
theorem scale_down_race_partition_witness :
    (let racer : NodeObj := ⟨"node-a", false, false, true⟩
     let nodes : List NodeObj := [⟨"node-a", false, false, true⟩, ⟨"node-b", false, true, false⟩]
     racer ∈ (execute_scale_down_model nodes).2 ∧
       racer ∉ (execute_scale_down_model nodes).1) := by
  exact (scale_down_race_partition
      [⟨"node-a", false, false, true⟩, ⟨"node-b", false, true, false⟩]
      ⟨"node-a", false, false, true⟩ (by decide) rfl).2.1 (by decide)

/-! ### C6: downscale cap -/

theorem innerDown_facts {α : Type} (limit : Nat) (i : Nat) (xs : List α) :
    (innerDown limit i xs).1.length ≤ limit - i ∧
    (innerDown limit i xs).1.length + i ≤ (innerDown limit i xs).2 ∧
    ∀ x ∈ (innerDown limit i xs).1, x ∈ xs := by
  induction xs generalizing i with
  | nil => simp [innerDown]
  | cons hd tl ih =>
    by_cases h : limit < i + 1
    · simp [innerDown, h]
    · have := ih (i + 1)
      simp only [innerDown, h, if_false, List.length_cons, List.mem_cons]
      refine ⟨by omega, by omega, ?_⟩
      intro x hxm
      rcases hxm with h1 | h2
      · exact Or.inl h1
      · exact Or.inr (this.2.2 x h2)

theorem outerDown_sum {α : Type} (limit : Nat) (i : Nat)
    (sh : List (String × List α)) :
    sumLens (outerDown limit i sh) ≤ limit - i := by
  induction sh generalizing i with
  | nil => simp [outerDown, sumLens]
  | cons hd tl ih =>
    obtain ⟨h1, h2, _⟩ := innerDown_facts limit i hd.2
    by_cases hb : limit ≤ (innerDown limit i hd.2).2
    · show sumLens (outerDown limit i (hd :: tl)) ≤ limit - i
      rw [outerDown]
      simp only [hb, if_true]
      cases he : (innerDown limit i hd.2).1.isEmpty with
      | true => simp [sumLens]
      | false =>
        simp [sumLens]
        omega
    · show sumLens (outerDown limit i (hd :: tl)) ≤ limit - i
      rw [outerDown]
      simp only [hb, if_false]
      have hrec := ih (innerDown limit i hd.2).2
      simp only [sumLens] at hrec ⊢
      cases he : (innerDown limit i hd.2).1.isEmpty with
      | true =>
        simp
        omega
      | false =>
        simp
        omega

theorem outerDown_mem {α : Type} (limit : Nat) (i : Nat)
    (sh : List (String × List α)) :
    ∀ p ∈ outerDown limit i sh, ∃ xs, (p.1, xs) ∈ sh ∧ ∀ x ∈ p.2, x ∈ xs := by
  induction sh generalizing i with
  | nil => simp [outerDown]
  | cons hd tl ih =>
    intro p hp
    rw [outerDown] at hp
    obtain ⟨_, _, hsub⟩ := innerDown_facts limit i hd.2
    have hentry : p ∈ (if (innerDown limit i hd.2).1.isEmpty then
          ([] : List (String × List α)) else [(hd.1, (innerDown limit i hd.2).1)]) →
        ∃ xs, (p.1, xs) ∈ hd :: tl ∧ ∀ x ∈ p.2, x ∈ xs := by
      intro hmem
      cases he : (innerDown limit i hd.2).1.isEmpty with
      | true => rw [he] at hmem; simp at hmem
      | false =>
        rw [he] at hmem
        simp only [Bool.false_eq_true, if_false, List.mem_singleton] at hmem
        subst hmem
        exact ⟨hd.2, by simp, hsub⟩
    by_cases hb : limit ≤ (innerDown limit i hd.2).2
    · simp only [hb, if_true] at hp
      exact hentry hp
    · simp only [hb, if_false, List.mem_append] at hp
      rcases hp with hp | hp
      · exact hentry hp
      · obtain ⟨xs, hxs, hsub2⟩ := ih _ p hp
        exact ⟨xs, List.mem_cons_of_mem _ hxs, hsub2⟩

/-- C6: for every retirement map and every shuffle of it, the output of the
downscale cap holds at most `limit` executors in total, and every executor
listed in the output under a label came from that label's input list. -/
theorem apply_downscale_limit_spec (limit : Nat)
    (m shuffled : List (String × List NodeData)) (hperm : shuffled.Perm m) :
    sumLens (_apply_downscale_limit limit shuffled) ≤ limit ∧
    ∀ p ∈ _apply_downscale_limit limit shuffled,
      ∃ xs, (p.1, xs) ∈ m ∧ ∀ x ∈ p.2, x ∈ xs := by
  constructor
  · have := outerDown_sum limit 0 shuffled
    simpa [_apply_downscale_limit] using this
  · intro p hp
    obtain ⟨xs, hxs, hsub⟩ := outerDown_mem limit 0 shuffled p hp
    exact ⟨xs, hperm.subset hxs, hsub⟩

/-- Witness for C6: a concrete two-label retirement map walked in reversed
(shuffled) order with cap 1 keeps a single retiree that indeed came from
the matching input list. -/
theorem apply_downscale_limit_spec_witness :
    (let n1 : NodeData := ⟨"n1", false, false, true, ["a"], none, none, ""⟩
     let n2 : NodeData := ⟨"n2", false, false, true, ["b"], none, none, ""⟩
     sumLens (_apply_downscale_limit 1 [("b", [n2]), ("a", [n1])]) ≤ 1 ∧
     ∀ p ∈ _apply_downscale_limit 1 [("b", [n2]), ("a", [n1])],
       ∃ xs, (p.1, xs) ∈ [("a", [n1]), ("b", [n2])] ∧ ∀ x ∈ p.2, x ∈ xs) := by
  exact apply_downscale_limit_spec 1
    [("a", [⟨"n1", false, false, true, ["a"], none, none, ""⟩]),
     ("b", [⟨"n2", false, false, true, ["b"], none, none, ""⟩])]
    [("b", [⟨"n2", false, false, true, ["b"], none, none, ""⟩]),
     ("a", [⟨"n1", false, false, true, ["a"], none, none, ""⟩])]
    (List.Perm.swap _ _ _)

/-! ### Association-list lemmas -/

theorem getL_cons_eq {α : Type} (k k' : String) (v : List α)
    (rest : List (String × List α)) :
    getL ((k', v) :: rest) k = if k = k' then v else getL rest k := by
  by_cases h : k = k' <;> simp [getL, lookupA, h]

theorem getL_mem_entry {α : Type} {m : List (String × List α)} {k : String}
    {n : α} (h : n ∈ getL m k) : ∃ v, (k, v) ∈ m ∧ n ∈ v := by
  induction m with
  | nil => simp [getL, lookupA] at h
  | cons hd tl ih =>
    obtain ⟨k', v⟩ := hd
    by_cases hk : k = k'
    · subst hk
      rw [getL_cons_eq] at h
      simp only [if_true] at h
      exact ⟨v, by simp, by simpa using h⟩
    · rw [getL_cons_eq, if_neg hk] at h
      obtain ⟨v2, hv2, hn⟩ := ih h
      exact ⟨v2, List.mem_cons_of_mem _ hv2, hn⟩

theorem getL_addTo_self {α : Type} (m : List (String × List α)) (k : String) (x : α) :
    getL (addTo m k x) k = getL m k ++ [x] := by
  induction m with
  | nil => simp [addTo, getL, lookupA]
  | cons hd tl ih =>
    obtain ⟨k', v⟩ := hd
    by_cases hk : k = k'
    · simp [addTo, hk, getL_cons_eq]
    · simp [addTo, hk, getL_cons_eq, ih]

theorem getL_addTo_other {α : Type} (m : List (String × List α)) (k lab : String)
    (x : α) (h : lab ≠ k) : getL (addTo m k x) lab = getL m lab := by
  induction m with
  | nil => simp [addTo, getL, lookupA, h]
  | cons hd tl ih =>
    obtain ⟨k', v⟩ := hd
    by_cases hk : k = k'
    · subst hk
      simp [addTo, getL_cons_eq, h]
    · by_cases hl : lab = k'
      · simp [addTo, hk, getL_cons_eq, hl]
      · simp [addTo, hk, getL_cons_eq, hl, ih]

theorem mem_getL_addTo {α : Type} {m : List (String × List α)} {k lab : String}
    {x n : α} (h : n ∈ getL m lab) : n ∈ getL (addTo m k x) lab := by
  by_cases hk : lab = k
  · subst hk
    rw [getL_addTo_self]
    exact List.mem_append_left _ h
  · rwa [getL_addTo_other _ _ _ _ hk]

theorem inv_addTo {P : NodeData → Prop} {m : List (String × List NodeData)}
    {k : String} {x : NodeData} (h : InvMap P m) (hx : P x) :
    InvMap P (addTo m k x) := by
  induction m with
  | nil =>
    intro p hp n hn
    simp only [addTo, List.mem_singleton] at hp
    subst hp
    simp only [List.mem_singleton] at hn
    subst hn
    exact hx
  | cons hd tl ih =>
    obtain ⟨k', v⟩ := hd
    have htl : InvMap P tl := fun p hp => h p (List.mem_cons_of_mem _ hp)
    have hhd : ∀ n ∈ v, P n := h (k', v) (List.mem_cons_self _ _)
    by_cases hk : k = k'
    · intro p hp n hn
      simp [addTo, hk] at hp
      rcases hp with h1 | h2
      · subst h1
        rcases List.mem_append.mp hn with h3 | h4
        · exact hhd n h3
        · simp only [List.mem_singleton] at h4
          subst h4
          exact hx
      · exact htl p h2 n hn
    · intro p hp n hn
      simp [addTo, hk] at hp
      rcases hp with h1 | h2
      · subst h1
        exact hhd n hn
      · exact ih htl p h2 n hn

theorem mem_setL {α : Type} {m : List (String × List α)} {k : String}
    {w : List α} {p : String × List α} (hp : p ∈ setL m k w) :
    p ∈ m ∨ p = (k, w) := by
  induction m with
  | nil => simp [setL] at hp
  | cons hd tl ih =>
    obtain ⟨k', v⟩ := hd
    by_cases hk : k = k'
    · rw [show setL ((k', v) :: tl) k w = (k', w) :: tl by rw [setL, if_pos hk]] at hp
      rcases List.mem_cons.mp hp with h1 | h2
      · right
        rw [h1, hk]
      · left
        exact List.mem_cons_of_mem _ h2
    · rw [show setL ((k', v) :: tl) k w = (k', v) :: setL tl k w by
        rw [setL, if_neg hk]] at hp
      rcases List.mem_cons.mp hp with h1 | h2
      · left
        simp [h1]
      · rcases ih h2 with h3 | h3
        · left
          exact List.mem_cons_of_mem _ h3
        · right
          exact h3

/-! ### Invariants of the scale-down analyzer -/

theorem popLoop_subset {pick : Nat → Nat} {ctr fuel : Nat} {l l2 : List NodeData}
    {ctr2 : Nat} (h : popLoop pick ctr fuel l = some (l2, ctr2)) : l2 ⊆ l := by
  induction fuel generalizing ctr l with
  | zero =>
    simp only [popLoop, Option.some.injEq, Prod.mk.injEq] at h
    rw [← h.1]
    exact List.Subset.refl _
  | succ fuel ih =>
    rw [popLoop] at h
    by_cases hl : l.length = 0
    · simp [hl] at h
    · simp only [hl, if_false] at h
      exact (ih h).trans (List.eraseIdx_subset _ _)

theorem warmPass_inv {P : NodeData → Prop} {pick : Nat → Nat}
    {considered : List (String × List NodeData)} {wp : List (String × Nat)}
    {ctr : Nat} {dis dis2 : List (String × List NodeData)} {ctr2 : Nat}
    (hInv : InvMap P dis)
    (h : warmPass pick considered wp ctr dis = some (dis2, ctr2)) :
    InvMap P dis2 := by
  induction wp generalizing ctr dis with
  | nil =>
    simp only [warmPass, Option.some.injEq, Prod.mk.injEq] at h
    rw [← h.1]
    exact hInv
  | cons hd rest ih =>
    obtain ⟨wl, wv⟩ := hd
    simp only [warmPass] at h
    by_cases hc : (getL dis wl).isEmpty = true
    · rw [if_pos hc] at h
      exact ih hInv h
    · rw [if_neg hc] at h
      revert h
      cases hpop : popLoop pick ctr
          (((wv : Int) - (((getL considered wl).length : Int) -
            ((getL dis wl).length : Int))).toNat) (getL dis wl) with
      | none =>
        intro h
        exact absurd h (by simp)
      | some pr =>
        obtain ⟨cur2, ctr2'⟩ := pr
        intro h
        have hcur : ∀ n ∈ cur2, P n := by
          intro n hn
          obtain ⟨v, hv, hnv⟩ := getL_mem_entry (popLoop_subset hpop hn)
          exact hInv (wl, v) hv n hnv
        have hset : InvMap P (setL dis wl cur2) := by
          intro p hp n hn
          rcases mem_setL hp with h1 | h1
          · exact hInv p h1 n hn
          · subst h1
            exact hcur n hn
        exact ih hset h

theorem scanStep_dis_inv (cfg : Config) (uptime : List (String × Nat))
    (acc : List (String × List NodeData) × List (String × List NodeData))
    (node : NodeData) (h : InvMap (DisOk uptime) acc.1) :
    InvMap (DisOk uptime) (scanStep cfg uptime acc node).1 := by
  by_cases hcond : node.offline = false ∧ node.idle = true
  case neg => simpa [scanStep, hcond] using h
  case pos =>
  cases hml : (_managed_node_label cfg.managedLabels cfg.ignoredLabels node).1 with
  | none => simpa [scanStep, hcond, hml] using h
  | some label =>
    by_cases hmem : label ∈ cfg.managedLabels
    case neg => simpa [scanStep, hcond, hml, hmem] using h
    case pos =>
    cases harch : node.arch with
    | none => simpa [scanStep, hcond, hml, hmem, harch] using h
    | some archStr =>
      cases hwin : isWindowsArch archStr with
      | false =>
        have hgoal : (scanStep cfg uptime acc node).1 = addTo acc.1 label node := by
          simp [scanStep, hcond, hml, hmem, harch, hwin]
        rw [hgoal]
        exact inv_addTo h ⟨hcond.1, hcond.2, by simp [windowsShortB, harch, hwin]⟩
      | true =>
        cases hup : lookupA uptime node.displayName with
        | none => simpa [scanStep, hcond, hml, hmem, harch, hwin, hup] using h
        | some d =>
          by_cases hshort : d % 3600 < WINDOWS_MIN_PARTIAL_RUNTIME_SECONDS
          · simpa [scanStep, hcond, hml, hmem, harch, hwin, hup, hshort] using h
          · have hgoal : (scanStep cfg uptime acc node).1 = addTo acc.1 label node := by
              simp [scanStep, hcond, hml, hmem, harch, hwin, hup, hshort]
            rw [hgoal]
            exact inv_addTo h
              ⟨hcond.1, hcond.2, by simp [windowsShortB, harch, hwin, hup, hshort]⟩

theorem scan_dis_inv (cfg : Config) (uptime : List (String × Nat))
    (nodes : List NodeData) :
    ∀ acc, InvMap (DisOk uptime) acc.1 →
      InvMap (DisOk uptime) (nodes.foldl (scanStep cfg uptime) acc).1 := by
  induction nodes with
  | nil =>
    intro acc h
    simpa using h
  | cons hd tl ih =>
    intro acc h
    rw [List.foldl_cons]
    exact ih _ (scanStep_dis_inv cfg uptime acc hd h)

theorem scanStep_snd_shape (cfg : Config) (uptime : List (String × Nat))
    (acc : List (String × List NodeData) × List (String × List NodeData))
    (node : NodeData) :
    (scanStep cfg uptime acc node).2 = acc.2 ∨
    ∃ lab, (scanStep cfg uptime acc node).2 = addTo acc.2 lab node := by
  by_cases hcond : node.offline = false ∧ node.idle = true
  case neg => exact Or.inl (by simp [scanStep, hcond])
  case pos =>
  cases hml : (_managed_node_label cfg.managedLabels cfg.ignoredLabels node).1 with
  | none => exact Or.inl (by simp [scanStep, hcond, hml])
  | some label =>
    by_cases hmem : label ∈ cfg.managedLabels
    case neg => exact Or.inl (by simp [scanStep, hcond, hml, hmem])
    case pos =>
    cases harch : node.arch with
    | none => exact Or.inl (by simp [scanStep, hcond, hml, hmem, harch])
    | some archStr =>
      cases hwin : isWindowsArch archStr with
      | false =>
        exact Or.inr ⟨label, by simp [scanStep, hcond, hml, hmem, harch, hwin]⟩
      | true =>
        cases hup : lookupA uptime node.displayName with
        | none => exact Or.inl (by simp [scanStep, hcond, hml, hmem, harch, hwin, hup])
        | some d =>
          by_cases hshort : d % 3600 < WINDOWS_MIN_PARTIAL_RUNTIME_SECONDS
          · exact Or.inr ⟨label,
              by simp [scanStep, hcond, hml, hmem, harch, hwin, hup, hshort]⟩
          · exact Or.inr ⟨label,
              by simp [scanStep, hcond, hml, hmem, harch, hwin, hup, hshort]⟩

theorem foldl_considered_mono (cfg : Config) (uptime : List (String × Nat))
    (nodes : List NodeData) :
    ∀ acc lab (n : NodeData), n ∈ getL acc.2 lab →
      n ∈ getL (nodes.foldl (scanStep cfg uptime) acc).2 lab := by
  induction nodes with
  | nil =>
    intro acc lab n h
    simpa using h
  | cons hd tl ih =>
    intro acc lab n h
    rw [List.foldl_cons]
    refine ih _ lab n ?_
    rcases scanStep_snd_shape cfg uptime acc hd with hs | ⟨lab2, hs⟩
    · rwa [hs]
    · rw [hs]
      exact mem_getL_addTo h

theorem scanStep_considered_self (cfg : Config) (uptime : List (String × Nat))
    (acc : List (String × List NodeData) × List (String × List NodeData))
    (node : NodeData) (lab : String)
    (hoff : node.offline = false) (hidle : node.idle = true)
    (hml : (_managed_node_label cfg.managedLabels cfg.ignoredLabels node).1 = some lab)
    (hlab : lab ∈ cfg.managedLabels)
    (hshort : windowsShortB uptime node = true) :
    node ∈ getL (scanStep cfg uptime acc node).2 lab := by
  unfold windowsShortB at hshort
  cases harch : node.arch with
  | none => rw [harch] at hshort; exact absurd hshort (by simp)
  | some archStr =>
    rw [harch] at hshort
    simp only [Bool.and_eq_true] at hshort
    cases hup : lookupA uptime node.displayName with
    | none => rw [hup] at hshort; exact absurd hshort.2 (by simp)
    | some d =>
      rw [hup] at hshort
      have hlt : d % 3600 < WINDOWS_MIN_PARTIAL_RUNTIME_SECONDS := by
        have := hshort.2
        simpa using this
      have hgoal : (scanStep cfg uptime acc node).2 = addTo acc.2 lab node := by
        simp [scanStep, hoff, hidle, hml, hlab, harch, hshort.1, hup, hlt]
      rw [hgoal, getL_addTo_self]
      exact List.mem_append_right _ (by simp)

theorem foldl_considered_mem (cfg : Config) (uptime : List (String × Nat))
    (nodes : List NodeData) :
    ∀ acc (node : NodeData) (lab : String), node ∈ nodes →
      node.offline = false → node.idle = true →
      (_managed_node_label cfg.managedLabels cfg.ignoredLabels node).1 = some lab →
      lab ∈ cfg.managedLabels →
      windowsShortB uptime node = true →
      node ∈ getL (nodes.foldl (scanStep cfg uptime) acc).2 lab := by
  induction nodes with
  | nil =>
    intro acc node lab hmem
    exact absurd hmem (List.not_mem_nil node)
  | cons hd tl ih =>
    intro acc node lab hmem hoff hidle hml hlab hshort
    rcases List.mem_cons.mp hmem with h1 | h2
    · subst h1
      rw [List.foldl_cons]
      exact foldl_considered_mono cfg uptime tl _ lab node
        (scanStep_considered_self cfg uptime _ node lab hoff hidle hml hlab hshort)
    · rw [List.foldl_cons]
      exact ih _ node lab h2 hoff hidle hml hlab hshort

theorem scan_considered_mem (cfg : Config) (uptime : List (String × Nat))
    (nodes : List NodeData) (node : NodeData) (lab : String)
    (hmem : node ∈ nodes)
    (hoff : node.offline = false) (hidle : node.idle = true)
    (hml : (_managed_node_label cfg.managedLabels cfg.ignoredLabels node).1 = some lab)
    (hlab : lab ∈ cfg.managedLabels)
    (hshort : windowsShortB uptime node = true) :
    node ∈ getL (scaleDownScan cfg uptime nodes).2 lab :=
  foldl_considered_mem cfg uptime nodes ([], []) node lab hmem hoff hidle hml hlab hshort

/-! ### C2: Windows hourly-billing preservation -/

/-- C2: no Windows executor whose uptime modulo 3600 s is below
`WINDOWS_MIN_PARTIAL_RUNTIME_SECONDS` (3300 s) ever appears in the
retirement map produced by `determine_scale_down_nodes` — for every
executor set, uptime map, warm-pool configuration and random draw — and
such an executor is still counted toward the considered idle pool of its
label. -/
theorem windows_hourly_preserved (cfg : Config) (pick : Nat → Nat)
    (nodes : List NodeData) (uptime : List (String × Nat)) :
    (∀ res lab n, determine_scale_down_nodes cfg pick nodes uptime = some res →
        n ∈ getL res lab → windowsShortB uptime n = false) ∧
    (∀ n ∈ nodes, ∀ lab, n.offline = false → n.idle = true →
        (_managed_node_label cfg.managedLabels cfg.ignoredLabels n).1 = some lab →
        lab ∈ cfg.managedLabels → windowsShortB uptime n = true →
        n ∈ getL (scaleDownScan cfg uptime nodes).2 lab) := by
  constructor
  · intro res lab n hdet hmem
    simp only [determine_scale_down_nodes] at hdet
    revert hdet
    cases hwp : warmPass pick (scaleDownScan cfg uptime nodes).2 cfg.warmPool 0
        (scaleDownScan cfg uptime nodes).1 with
    | none =>
      intro hdet
      exact absurd hdet (by simp)
    | some pr =>
      obtain ⟨dis2, ctr2⟩ := pr
      intro hdet
      have hres : res = dis2.filter (fun p => !p.2.isEmpty) := by
        simpa using hdet.symm
      subst hres
      obtain ⟨v, hv, hnv⟩ := getL_mem_entry hmem
      have hv2 : (lab, v) ∈ dis2 := (List.mem_filter.mp hv).1
      have hinv0 : InvMap (DisOk uptime) (scaleDownScan cfg uptime nodes).1 := by
        unfold scaleDownScan
        exact scan_dis_inv cfg uptime nodes ([], [])
          (fun p hp => absurd hp (List.not_mem_nil p))
      have hinv := warmPass_inv hinv0 hwp
      exact (hinv (lab, v) hv2 n hnv).2.2
  · intro n hn lab hoff hidle hml hlab hshort
    exact scan_considered_mem cfg uptime nodes n lab hn hoff hidle hml hlab hshort

/-- Witness for C2: the concrete idle Windows executor with uptime 1000 s
(partial uptime below 3300 s) is counted in the considered pool, and in a
round where it has uptime 3510 s it lands in the retirement map and is
indeed not hourly-protected. -/
theorem windows_hourly_preserved_witness :
    nodeWin ∈ getL
        (scaleDownScan cfgWin [("mxnetwindows-cpu_a1b2c3d4e5", 1000)] [nodeWin]).2
        "mxnetwindows-cpu" ∧
    windowsShortB [("mxnetwindows-cpu_a1b2c3d4e5", 3510)] nodeWin = false := by
  constructor
  · exact (windows_hourly_preserved cfgWin (fun _ => 0) [nodeWin]
      [("mxnetwindows-cpu_a1b2c3d4e5", 1000)]).2 nodeWin (by simp) "mxnetwindows-cpu"
      (by decide) (by decide) (by decide) (by decide) (by decide)
  · exact (windows_hourly_preserved cfgWin (fun _ => 0) [nodeWin]
      [("mxnetwindows-cpu_a1b2c3d4e5", 3510)]).1
      [("mxnetwindows-cpu", [nodeWin])] "mxnetwindows-cpu" nodeWin
      (by decide) (by decide)

/-! ### C3: warm-pool enforcement when the floor exceeds the idle pool -/

/-- C3 (failing input): with warm pool 2 for a label that has exactly one
idle retirement-eligible executor, the warm-pool loop of
`determine_scale_down_nodes` pops more entries than the retiree list
holds: the second `random.randrange(0, 0)` raises `ValueError` (modelled
as `none`), for every possible random draw, instead of leaving the list
reduced by at most its length. -/
theorem warm_pool_exceeds_idle_crash (pick : Nat → Nat) :
    determine_scale_down_nodes cfgLinWarm2 pick [nodeLin] [] = none := by
  have hscan : scaleDownScan cfgLinWarm2 [] [nodeLin]
      = ([("mxnetlinux-cpu", [nodeLin])], [("mxnetlinux-cpu", [nodeLin])]) := by
    decide
  simp only [determine_scale_down_nodes, hscan]
  simp [warmPass, popLoop, getL, lookupA, Nat.mod_one]

/-! ### C4: the Windows near-hour scenario -/

/-- C4 (counterexample): the claim asserts that an idle, non-offline
Windows executor with uptime 3510 s (58 min 30 s) and warm pool 0 is not
selected for termination; in fact `determine_scale_down_nodes` does select
it, because 3510 mod 3600 = 3510 ≥ 3300 =
`WINDOWS_MIN_PARTIAL_RUNTIME_SECONDS`. -/
theorem windows_3510_selected_counterexample :
    determine_scale_down_nodes cfgWin (fun _ => 0) [nodeWin]
        [("mxnetwindows-cpu_a1b2c3d4e5", 3510)]
      = some [("mxnetwindows-cpu", [nodeWin])] ∧
    nodeWin ∈ getL [("mxnetwindows-cpu", [nodeWin])] "mxnetwindows-cpu" := by
  decide

/-- C4 (amended): the hourly-billing cutoff is 3300 s into the hour, so the
idle Windows executor with warm pool 0 is *not* selected at uptime 3270 s
(54 min 30 s, partial uptime below the cutoff), and *is* selected at both
3510 s (58 min 30 s) and 3540 s (59 min 00 s). -/
theorem windows_near_hour_amended :
    determine_scale_down_nodes cfgWin (fun _ => 0) [nodeWin]
        [("mxnetwindows-cpu_a1b2c3d4e5", 3270)] = some [] ∧
    determine_scale_down_nodes cfgWin (fun _ => 0) [nodeWin]
        [("mxnetwindows-cpu_a1b2c3d4e5", 3510)]
      = some [("mxnetwindows-cpu", [nodeWin])] ∧
    determine_scale_down_nodes cfgWin (fun _ => 0) [nodeWin]
        [("mxnetwindows-cpu_a1b2c3d4e5", 3540)]
      = some [("mxnetwindows-cpu", [nodeWin])] := by
  decide

/-! ### C5: label extraction round-trip -/

theorem count_le_of_isPrefixOf {P s : List Char} (h : P.isPrefixOf s = true)
    (c : Char) : P.count c ≤ s.count c := by
  induction P generalizing s with
  | nil => simp
  | cons p ps ih =>
    cases s with
    | nil => simp [List.isPrefixOf] at h
    | cons x xs =>
      simp only [List.isPrefixOf, Bool.and_eq_true, beq_iff_eq] at h
      obtain ⟨rfl, h2⟩ := h
      have := ih h2
      simp only [List.count_cons]
      omega

theorem searchPS_of_tryAt {P S s : List Char} {r : List Char}
    (h : tryAt P S s = some r) : searchPS P S s = some r := by
  cases s with
  | nil => simpa [searchPS] using h
  | cons c t => simp [searchPS, h]

theorem searchPS_none_of_count {P S : List Char} (c : Char) {s : List Char}
    (h : s.count c < P.count c) : searchPS P S s = none := by
  induction s with
  | nil =>
    have hP : P ≠ [] := by
      intro he
      subst he
      simp at h
    obtain ⟨p, ps, rfl⟩ := List.exists_cons_of_ne_nil hP
    simp [searchPS, tryAt, List.isPrefixOf]
  | cons x xs ih =>
    cases hb : P.isPrefixOf (x :: xs) with
    | true => exact absurd (count_le_of_isPrefixOf hb c) (by omega)
    | false =>
      have hxs : xs.count c < P.count c := by
        have hle := (List.sublist_cons_self x xs).count_le c
        omega
      have htry : tryAt P S (x :: xs) = none := by simp [tryAt, hb]
      simp [searchPS, htry, ih hxs]

theorem takeWhile_append_all {p : Char → Bool} {A : List Char} (B : List Char)
    (h : ∀ a ∈ A, p a = true) : (A ++ B).takeWhile p = A ++ B.takeWhile p := by
  induction A with
  | nil => simp
  | cons a as ih =>
    have ha : p a = true := h a (by simp)
    simp [List.takeWhile_cons, ha, ih (fun x hx => h x (by simp [hx]))]

theorem takeWhile_all {p : Char → Bool} {A : List Char}
    (h : ∀ a ∈ A, p a = true) : A.takeWhile p = A := by
  have := takeWhile_append_all (p := p) [] h
  simpa using this

theorem isPrefixOf_append_self (P X : List Char) : P.isPrefixOf (P ++ X) = true := by
  induction P with
  | nil => simp [List.isPrefixOf]
  | cons p ps ih => simp [List.isPrefixOf, ih]

theorem isPrefixOf_self (P : List Char) : P.isPrefixOf P = true := by
  have h := isPrefixOf_append_self P []
  rwa [List.append_nil] at h

theorem bt_hit {S rest run : List Char} {k : Nat}
    (h : S.isPrefixOf (rest.drop k) = true) : bt S rest run k = some (run.take k) := by
  cases k with
  | zero =>
    rw [List.drop_zero] at h
    simp [bt, h]
  | succ k => simp [bt, h]

theorem bt_step {S rest run : List Char} {k : Nat}
    (h : S.isPrefixOf (rest.drop (k + 1)) = false) :
    bt S rest run (k + 1) = bt S rest run k := by
  simp [bt, h]

theorem drop_append_len {L y : List Char} (n : Nat) :
    (L ++ y).drop (L.length + n) = y.drop n := by
  have := List.drop_drop n L.length (L ++ y)
  rw [← this, List.drop_left]

/-- Matching `P (label) ∅` against `P ++ L`: the group greedily captures
all of `L`. -/
theorem tryAt_nil_suffix (P L : List Char) (hL : ∀ c ∈ L, tokOk c = true) :
    tryAt P [] (P ++ L) = some L := by
  simp only [tryAt, isPrefixOf_append_self, if_true, List.drop_left]
  rw [takeWhile_all hL]
  rw [bt_hit (by simp [List.isPrefixOf])]
  rw [List.take_length]

/-- Matching `P (label) S` with a suffix that starts with a character
outside the class: the run stops exactly at the end of `L`. -/
theorem tryAt_stop_suffix (P L : List Char) (c : Char) (t : List Char)
    (hL : ∀ x ∈ L, tokOk x = true) (hc : tokOk c = false) :
    tryAt P (c :: t) (P ++ (L ++ (c :: t))) = some L := by
  simp only [tryAt, isPrefixOf_append_self, if_true, List.drop_left]
  rw [takeWhile_append_all _ hL,
    show (c :: t).takeWhile tokOk = [] from by simp [List.takeWhile_cons, hc],
    List.append_nil]
  rw [bt_hit (by rw [List.drop_left]; exact isPrefixOf_self _)]
  rw [List.take_length]

/-- Matching `P (label) ’S₂` where `S₂` is empty or starts with a space:
the greedy run swallows the closing curly quote and backtracking returns
it. -/
theorem tryAt_quote_suffix (P L S2 : List Char)
    (hL : ∀ x ∈ L, tokOk x = true)
    (hS2 : S2 = [] ∨ ∃ t, S2 = ' ' :: t) :
    tryAt P ('’' :: S2) (P ++ (L ++ ('’' :: S2))) = some L := by
  simp only [tryAt, isPrefixOf_append_self, if_true, List.drop_left]
  have hq : ('’' :: S2).takeWhile tokOk = ['’'] := by
    have hS2e : S2.takeWhile tokOk = [] := by
      rcases hS2 with h | ⟨t, h⟩
      · simp [h]
      · simp [h, List.takeWhile_cons, show tokOk ' ' = false from by decide]
    simp [List.takeWhile_cons, show tokOk '’' = true from by decide, hS2e]
  rw [takeWhile_append_all _ hL, hq]
  have hlen : (L ++ ['’']).length = L.length + 1 := by simp
  have hne : ('’' :: S2).isPrefixOf ((L ++ '’' :: S2).drop (L.length + 1)) = false := by
    rw [drop_append_len]
    rcases hS2 with h | ⟨t, h⟩ <;> subst h
    · simp [List.isPrefixOf]
    · simp [List.isPrefixOf, show ('’' == ' ') = false from by decide]
  have hhit : ('’' :: S2).isPrefixOf ((L ++ '’' :: S2).drop L.length) = true := by
    rw [List.drop_left]
    exact isPrefixOf_self _
  rw [hlen, bt_step hne, bt_hit hhit, List.take_left]

theorem pyStrip_eq_self {bad : Char → Bool} {l : List Char}
    (h : ∀ c ∈ l, bad c = false) : pyStrip bad l = l := by
  have hdw : ∀ (m : List Char), (∀ c ∈ m, bad c = false) → m.dropWhile bad = m := by
    intro m hm
    cases m with
    | nil => rfl
    | cons a as => simp [List.dropWhile_cons, hm a (by simp)]
  unfold pyStrip
  rw [hdw l h, hdw l.reverse (fun c hc => h c (List.mem_reverse.mp hc)),
    List.reverse_reverse]

theorem stringMk_toList (s : String) : String.mk s.toList = s := by
  cases s
  rfl

/-- Assembling `_label_from_queued_job` when the regex loop captured the
label verbatim. -/
theorem lfqj_of_capture {managed ignored : List String} {nodes : List NodeData}
    {why : List Char} {L : String}
    (hsent : ¬(why = SENTINEL ∨ why = SENTINEL ++ ['\n']))
    (hfm : firstMatch RE_NO_AVAILABLE_NODE why = some L.toList)
    (hstrip : ∀ c ∈ L.toList, stripBad c = false)
    (hm : L ∈ managed) :
    _label_from_queued_job managed ignored nodes why = (some L, 0) := by
  simp only [_label_from_queued_job]
  rw [if_neg hsent, hfm]
  simp only [_label_postprocess, pyStrip_eq_self hstrip, stringMk_toList]
  rw [if_pos hm]

theorem firstMatch_cons_some {P S : List Char} {rest : List (List Char × List Char)}
    {s r : List Char} (h : searchPS P S s = some r) :
    firstMatch ((P, S) :: rest) s = some r := by
  simp [firstMatch, h]

theorem firstMatch_cons_none {P S : List Char} {rest : List (List Char × List Char)}
    {s : List Char} (h : searchPS P S s = none) :
    firstMatch ((P, S) :: rest) s = firstMatch rest s := by
  simp [firstMatch, h]

/-- C5: for every managed label `L` built from label-safe characters (no
whitespace, `;`, backslash, or quote characters) and every queue item whose
`why` text is one of the five accepted blockage-reason templates with `L`
substituted for the label group, `_label_from_queued_job` returns exactly
`L` (and logs no error). -/
theorem label_roundtrip (managed ignored : List String) (nodes : List NodeData)
    (L : String)
    (hchars : ∀ c ∈ L.toList, tokOk c = true ∧ stripBad c = false)
    (hm : L ∈ managed) :
    ∀ PS ∈ RE_NO_AVAILABLE_NODE,
      _label_from_queued_job managed ignored nodes (PS.1 ++ (L.toList ++ PS.2))
        = (some L, 0) := by
  have htok : ∀ c ∈ L.toList, tokOk c = true := fun c hc => (hchars c hc).1
  have hstrip : ∀ c ∈ L.toList, stripBad c = false := fun c hc => (hchars c hc).2
  have hnotin : ∀ (c : Char), (tokOk c = false ∨ stripBad c = true) → c ∉ L.toList := by
    intro c hc hmem
    rcases hc with h | h
    · simp [(hchars c hmem).1] at h
    · simp [(hchars c hmem).2] at h
  have hsp : L.toList.count ' ' = 0 :=
    List.count_eq_zero.mpr (hnotin ' ' (Or.inl (by decide)))
  have hoq : L.toList.count '‘' = 0 :=
    List.count_eq_zero.mpr (hnotin '‘' (Or.inr (by decide)))
  have hcq : L.toList.count '’' = 0 :=
    List.count_eq_zero.mpr (hnotin '’' (Or.inr (by decide)))
  have hcw : ∀ (P S : List Char) (c : Char),
      (P ++ (L.toList ++ S)).count c = P.count c + (L.toList.count c + S.count c) := by
    intro P S c
    simp [List.count_append]
  have hsent : ∀ (P S : List Char), (P ++ (L.toList ++ S)).count ' ' ≠ 4 →
      ¬(P ++ (L.toList ++ S) = SENTINEL ∨
        P ++ (L.toList ++ S) = SENTINEL ++ ['\n']) := by
    intro P S hcnt hor
    rcases hor with he | he <;> rw [he] at hcnt <;> exact hcnt (by decide)
  intro PS hPS
  simp only [RE_NO_AVAILABLE_NODE, List.mem_cons, List.not_mem_nil, or_false] at hPS
  rcases hPS with rfl | rfl | rfl | rfl | rfl
  · -- "There are no nodes with the label ‘L’"
    show _label_from_queued_job managed ignored nodes
      (reP1 ++ (L.toList ++ reS1)) = (some L, 0)
    refine lfqj_of_capture (hsent _ _ (by rw [hcw, hsp]; decide)) ?_ hstrip hm
    have h1 : searchPS reP1 reS1 (reP1 ++ (L.toList ++ reS1)) = some L.toList := by
      apply searchPS_of_tryAt
      rw [show reS1 = '’' :: [] from rfl]
      exact tryAt_quote_suffix reP1 L.toList [] htok (Or.inl rfl)
    unfold RE_NO_AVAILABLE_NODE
    rw [firstMatch_cons_some h1]
  · -- "All nodes of label ‘L’ are offline"
    show _label_from_queued_job managed ignored nodes
      (reP2 ++ (L.toList ++ reS2)) = (some L, 0)
    refine lfqj_of_capture (hsent _ _ (by rw [hcw, hsp]; decide)) ?_ hstrip hm
    have hn1 : searchPS reP1 reS1 (reP2 ++ (L.toList ++ reS2)) = none := by
      apply searchPS_none_of_count ' '
      rw [hcw, hsp]
      decide
    have h2 : searchPS reP2 reS2 (reP2 ++ (L.toList ++ reS2)) = some L.toList := by
      apply searchPS_of_tryAt
      rw [show reS2 = '’' :: " are offline".toList from rfl]
      exact tryAt_quote_suffix reP2 L.toList " are offline".toList htok
        (Or.inr ⟨"are offline".toList, rfl⟩)
    unfold RE_NO_AVAILABLE_NODE
    rw [firstMatch_cons_none hn1, firstMatch_cons_some h2]
  · -- "doesn’t have label L"
    show _label_from_queued_job managed ignored nodes
      (reP3 ++ (L.toList ++ [])) = (some L, 0)
    refine lfqj_of_capture (hsent _ _ (by rw [hcw, hsp]; decide)) ?_ hstrip hm
    have hn1 : searchPS reP1 reS1 (reP3 ++ (L.toList ++ [])) = none := by
      apply searchPS_none_of_count '‘'
      rw [hcw, hoq]
      decide
    have hn2 : searchPS reP2 reS2 (reP3 ++ (L.toList ++ [])) = none := by
      apply searchPS_none_of_count '‘'
      rw [hcw, hoq]
      decide
    have h3 : searchPS reP3 [] (reP3 ++ (L.toList ++ [])) = some L.toList := by
      apply searchPS_of_tryAt
      rw [List.append_nil]
      exact tryAt_nil_suffix reP3 L.toList htok
    unfold RE_NO_AVAILABLE_NODE
    rw [firstMatch_cons_none hn1, firstMatch_cons_none hn2, firstMatch_cons_some h3]
  · -- "Waiting for next available executor on L"
    show _label_from_queued_job managed ignored nodes
      (reP4 ++ (L.toList ++ [])) = (some L, 0)
    refine lfqj_of_capture (hsent _ _ (by rw [hcw, hsp]; decide)) ?_ hstrip hm
    have hn1 : searchPS reP1 reS1 (reP4 ++ (L.toList ++ [])) = none := by
      apply searchPS_none_of_count ' '
      rw [hcw, hsp]
      decide
    have hn2 : searchPS reP2 reS2 (reP4 ++ (L.toList ++ [])) = none := by
      apply searchPS_none_of_count '‘'
      rw [hcw, hoq]
      decide
    have hn3 : searchPS reP3 [] (reP4 ++ (L.toList ++ [])) = none := by
      apply searchPS_none_of_count '’'
      rw [hcw, hcq]
      decide
    have h4 : searchPS reP4 [] (reP4 ++ (L.toList ++ [])) = some L.toList := by
      apply searchPS_of_tryAt
      rw [List.append_nil]
      exact tryAt_nil_suffix reP4 L.toList htok
    unfold RE_NO_AVAILABLE_NODE
    rw [firstMatch_cons_none hn1, firstMatch_cons_none hn2, firstMatch_cons_none hn3,
      firstMatch_cons_some h4]
  · -- "L is offline"
    show _label_from_queued_job managed ignored nodes
      ([] ++ (L.toList ++ reS5)) = (some L, 0)
    refine lfqj_of_capture (hsent _ _ (by rw [hcw, hsp]; decide)) ?_ hstrip hm
    have hn1 : searchPS reP1 reS1 ([] ++ (L.toList ++ reS5)) = none := by
      apply searchPS_none_of_count ' '
      rw [hcw, hsp]
      decide
    have hn2 : searchPS reP2 reS2 ([] ++ (L.toList ++ reS5)) = none := by
      apply searchPS_none_of_count ' '
      rw [hcw, hsp]
      decide
    have hn3 : searchPS reP3 [] ([] ++ (L.toList ++ reS5)) = none := by
      apply searchPS_none_of_count ' '
      rw [hcw, hsp]
      decide
    have hn4 : searchPS reP4 [] ([] ++ (L.toList ++ reS5)) = none := by
      apply searchPS_none_of_count ' '
      rw [hcw, hsp]
      decide
    have h5 : searchPS [] reS5 ([] ++ (L.toList ++ reS5)) = some L.toList := by
      apply searchPS_of_tryAt
      rw [show reS5 = ' ' :: "is offline".toList from rfl]
      exact tryAt_stop_suffix [] L.toList ' ' "is offline".toList htok (by decide)
    unfold RE_NO_AVAILABLE_NODE
    rw [firstMatch_cons_none hn1, firstMatch_cons_none hn2, firstMatch_cons_none hn3,
      firstMatch_cons_none hn4, firstMatch_cons_some h5]

/-- Witness for C5: the managed label `mxnetlinux-gpu` substituted into the
fourth template round-trips through `_label_from_queued_job`. -/
theorem label_roundtrip_witness :
    _label_from_queued_job ["mxnetlinux-gpu"] [] []
        (reP4 ++ ("mxnetlinux-gpu".toList ++ ([] : List Char)))
      = (some "mxnetlinux-gpu", 0) := by
  exact label_roundtrip ["mxnetlinux-gpu"] [] [] "mxnetlinux-gpu"
    (by decide) (by simp) (reP4, []) (by simp [RE_NO_AVAILABLE_NODE])

/-! ### C7: suspicious queue items with idle executors -/

theorem mnl_shape (managed ignored : List String) (node : NodeData) :
    (_managed_node_label managed ignored node).2 = 0 ∨
    (_managed_node_label managed ignored node).1 = none := by
  simp only [_managed_node_label]
  split
  · left
    rfl
  · split
    · left
      rfl
    · left
      rfl
    · right
      rfl

theorem postprocess_shape (managed ignored : List String) (nodes : List NodeData)
    (raw : List Char) :
    (_label_postprocess managed ignored nodes raw).2 = 0 ∨
    (_label_postprocess managed ignored nodes raw).1 = none := by
  simp only [_label_postprocess]
  split
  · left
    rfl
  · split
    · right
      rfl
    · split
      · next l2 e heq =>
        rcases mnl_shape managed ignored _ with h0 | h0
        · rw [heq] at h0
          left
          exact h0
        · rw [heq] at h0
          simp at h0
      · right
        rfl

theorem lfqj_shape (managed ignored : List String) (nodes : List NodeData)
    (why : List Char) :
    (_label_from_queued_job managed ignored nodes why).2 = 0 ∨
    (_label_from_queued_job managed ignored nodes why).1 = none := by
  simp only [_label_from_queued_job]
  split
  · left
    rfl
  · exact postprocess_shape managed ignored nodes _

theorem lfqj_err_of_some {managed ignored : List String} {nodes : List NodeData}
    {why : List Char} {l : String}
    (h : (_label_from_queued_job managed ignored nodes why).1 = some l) :
    (_label_from_queued_job managed ignored nodes why).2 = 0 := by
  rcases lfqj_shape managed ignored nodes why with h0 | h0
  · exact h0
  · rw [h0] at h
    exact absurd h (by simp)

theorem scaleUpStep_suspicious (cfg : Config) (now : ℚ) (nodes : List NodeData)
    (acc : List (String × Nat) × Nat) (item : QueueItem)
    (h : IdleSuspicious cfg now nodes item) :
    scaleUpStep cfg now nodes
        (_get_idle_nodes_per_label cfg.managedLabels cfg.ignoredLabels nodes).1
        acc item = (acc.1, acc.2 + 1) := by
  obtain ⟨label, minT, hl, hq, hmat, hidl⟩ := h
  have hp : _label_from_queued_job cfg.managedLabels cfg.ignoredLabels nodes item.why
      = (some label, 0) := by
    rw [Prod.ext_iff]
    exact ⟨hl, lfqj_err_of_some hl⟩
  have hnmat : ¬(now - (item.inQueueSince : ℚ) / 1000 < (minT : ℚ)) := not_lt.mpr hmat
  simp [scaleUpStep, hp, hq, hnmat, hidl]

theorem scaleUpScan_suspicious (cfg : Config) (now : ℚ) (nodes : List NodeData)
    (items : List QueueItem)
    (h : ∀ it ∈ items, IdleSuspicious cfg now nodes it) :
    ∀ acc, items.foldl (scaleUpStep cfg now nodes
        (_get_idle_nodes_per_label cfg.managedLabels cfg.ignoredLabels nodes).1) acc
      = (acc.1, acc.2 + items.length) := by
  induction items with
  | nil =>
    intro acc
    simp
  | cons hd tl ih =>
    intro acc
    rw [List.foldl_cons, scaleUpStep_suspicious cfg now nodes acc hd (h hd (by simp)),
      ih (fun it hit => h it (by simp [hit]))]
    show ((acc.1 : List (String × Nat)), acc.2 + 1 + tl.length)
      = (acc.1, acc.2 + (hd :: tl).length)
    have h2 : acc.2 + 1 + tl.length = acc.2 + (hd :: tl).length := by
      simp only [List.length_cons]
      omega
    rw [h2]

theorem subtractUnconnected_nil (unc : List (String × List String)) :
    subtractUnconnected unc [] = [] := by
  induction unc with
  | nil => rfl
  | cons hd rest ih =>
    obtain ⟨label, names⟩ := hd
    have hneg : ¬(0 < ((getNum [] label : Int) - (names.length : Int))) := by
      simp [getNum, lookupA]
    simp [subtractUnconnected, hneg, lookupA, ih]

/-- C7: when every queue item resolves to a managed label that is mature
and has at least one idle, non-offline executor, the demand analyzer
produces an empty demand map and logs one error per item (plus whatever
errors the idle-count pass itself produced). -/
theorem scale_up_idle_suspicious (cfg : Config) (now : ℚ) (nodes : List NodeData)
    (items : List QueueItem) (unconnected : List (String × List String))
    (h : ∀ it ∈ items, IdleSuspicious cfg now nodes it) :
    determine_scale_up_nodes cfg now items nodes unconnected
      = ([], (_get_idle_nodes_per_label cfg.managedLabels cfg.ignoredLabels nodes).2
          + items.length) := by
  simp only [determine_scale_up_nodes]
  rw [scaleUpScan_suspicious cfg now nodes items h ([], 0)]
  show (subtractUnconnected unconnected
      (_calculate_nb_required_nodes cfg ([] : List (String × Nat))).1,
    (_get_idle_nodes_per_label cfg.managedLabels cfg.ignoredLabels nodes).2
      + (0 + items.length)
      + (_calculate_nb_required_nodes cfg ([] : List (String × Nat))).2) = _
  rw [show _calculate_nb_required_nodes cfg ([] : List (String × Nat)) = ([], 0) from rfl]
  rw [subtractUnconnected_nil]
  refine congrArg _ ?_
  omega

/-- Witness for C7: ten stale queue items citing the restricted label while
five idle restricted executors exist produce zero demand and exactly ten
error logs. -/
theorem scale_up_idle_suspicious_witness :
    determine_scale_up_nodes cfgRestricted 1000 restrictedQueueItems
        restrictedIdleNodes [] = ([], 10) := by
  have hone : ∀ it ∈ restrictedQueueItems,
      IdleSuspicious cfgRestricted 1000 restrictedIdleNodes it := by
    intro it hit
    simp only [restrictedQueueItems, List.mem_map] at hit
    obtain ⟨i, _, rfl⟩ := hit
    refine ⟨"restricted-mxnetlinux-cpu", 30, ?_, ?_, ?_, ?_⟩
    · show (_label_from_queued_job cfgRestricted.managedLabels
          cfgRestricted.ignoredLabels restrictedIdleNodes
          ("Waiting for next available executor on restricted-mxnetlinux-cpu").toList).1
        = some "restricted-mxnetlinux-cpu"
      decide
    · decide
    · show ((30 : Int) : ℚ) ≤ (1000 : ℚ) - ((0 : Int) : ℚ) / 1000
      norm_num
    · decide
  have h := scale_up_idle_suspicious cfgRestricted 1000 restrictedIdleNodes
    restrictedQueueItems [] hone
  exact h.trans (by decide)

/-! ### C10: a VM counted as both pending and orphan in one pass -/

/-- C10: a managed pending/running VM whose Name tag matches no executor
is double-counted in a single pass — `_unconnected_instances` files it
under its label tag in the pending map (which `determine_scale_up_nodes`
subtracts from demand), and `_determine_faulty_nodes` simultaneously lists
the same VM as an orphaned instance for termination. -/
theorem pending_orphan_double_count :
    _unconnected_instances [] [] [ghostInstance]
      = some [("mxnetlinux-cpu", ["mxnetlinux-cpu_gh0st00000"])] ∧
    "mxnetlinux-cpu_gh0st00000"
      ∈ getL [("mxnetlinux-cpu", ["mxnetlinux-cpu_gh0st00000"])] "mxnetlinux-cpu" ∧
    _determine_faulty_nodes cfgOrphan []
        [("mxnetlinux-cpu", ["mxnetlinux-cpu_gh0st00000"])] []
      = some ([], ["mxnetlinux-cpu_gh0st00000"]) := by
  decide

end Autoscaling
